import Mathlib

/-!
Verification of the `directorywatcher` package of laumann/goutil.

The repository contains two near-identical polling directory watchers:
the inline-walk variant (its scan function is called `scan1` here, from
`goutil/env/env.go`'s second file) and the pluggable-scanner variant
(`scan2`, with `globScanner`/`recScanner`).  This file gives a shallow
embedding of the watcher: the filesystem is modelled as a tree of nodes
(`FsNode`), `os.FileInfo` as a record of the three methods the code uses
(`Name`, `ModTime`, `IsDir`), Go maps as association lists in a fixed
iteration order, channels of traversal entries as lists, and panics
(nil-pointer dereferences) as `Option.none` results.
-/

namespace DirectoryWatcher

/-! ### Model of `path/filepath.Match`

`matches` in the source wraps `filepath.Match(pattern, name)` and
collapses an `ErrBadPattern` error into `false`.  The model parses the
pattern into tokens (`none` = malformed pattern, which `matches` treats
as a non-match) and then runs the usual shell-glob matcher: `*` and `?`
do not match `/`, `[...]`/`[^...]` are character classes with ranges and
`\\` escapes. -/

inductive GlobTok where
  | lit (c : Char)
  | anyc
  | star
  | cls (neg : Bool) (ranges : List (Char × Char))
deriving DecidableEq

/-- Parse the body of a `[...]` character class (after the optional `^`),
returning the ranges and the rest of the pattern.  `none` models
`ErrBadPattern` (empty class, unterminated class, stray `-`, trailing
escape).  The fuel argument bounds recursion; callers pass at least the
length of the list, so it never runs out. -/
def parseRanges : Nat → List Char → List (Char × Char) → Option (List (Char × Char) × List Char)
  | 0, _, _ => none
  | _ + 1, [], _ => none
  | fuel + 1, c :: rest, acc =>
    if c = ']' then
      if acc.isEmpty then none else some (acc.reverse, rest)
    else if c = '-' then none
    else
      match (if c = '\\' then match rest with | [] => none | d :: rest2 => some (d, rest2)
             else some (c, rest)) with
      | none => none
      | some (lo, rest2) =>
        match rest2 with
        | '-' :: rest3 =>
          match rest3 with
          | [] => none
          | d :: rest4 =>
            if d = ']' ∨ d = '-' then none
            else if d = '\\' then
              match rest4 with
              | [] => none
              | e :: rest5 => parseRanges fuel rest5 ((lo, e) :: acc)
            else parseRanges fuel rest4 ((lo, d) :: acc)
        | _ => parseRanges fuel rest2 ((lo, lo) :: acc)

/-- Tokenise a glob pattern; `none` models `ErrBadPattern`. -/
def parseGlobAux : Nat → List Char → Option (List GlobTok)
  | 0, [] => some []
  | 0, _ :: _ => none
  | _ + 1, [] => some []
  | fuel + 1, c :: rest =>
    if c = '*' then (parseGlobAux fuel rest).map (GlobTok.star :: ·)
    else if c = '?' then (parseGlobAux fuel rest).map (GlobTok.anyc :: ·)
    else if c = '\\' then
      match rest with
      | [] => none
      | d :: rest2 => (parseGlobAux fuel rest2).map (GlobTok.lit d :: ·)
    else if c = '[' then
      match rest with
      | '^' :: rest2 =>
        match parseRanges fuel rest2 [] with
        | none => none
        | some (rs, rest3) => (parseGlobAux fuel rest3).map (GlobTok.cls true rs :: ·)
      | _ =>
        match parseRanges fuel rest [] with
        | none => none
        | some (rs, rest3) => (parseGlobAux fuel rest3).map (GlobTok.cls false rs :: ·)
    else (parseGlobAux fuel rest).map (GlobTok.lit c :: ·)

def parseGlob (pat : String) : Option (List GlobTok) :=
  parseGlobAux pat.length pat.data

def rangesMatch (c : Char) (rs : List (Char × Char)) : Bool :=
  rs.any (fun r => decide (r.1 ≤ c) && decide (c ≤ r.2))

def tokMatch (t : GlobTok) (c : Char) : Bool :=
  match t with
  | .lit d => c = d
  | .anyc => c ≠ '/'
  | .star => false
  | .cls neg rs => rangesMatch c rs != neg

/-- The token matcher.  A `star` either matches nothing (continue with
the rest of the tokens) or consumes one character other than `/`.  The
fuel argument makes the recursion structural; every call consumes one
unit while shrinking tokens-plus-name, so `tokens + name + 1` units
never run out. -/
def toksMatchAux : Nat → List GlobTok → List Char → Bool
  | 0, _, _ => false
  | _ + 1, [], ns => ns.isEmpty
  | fuel + 1, .star :: ts, ns =>
    toksMatchAux fuel ts ns ||
      (match ns with
       | [] => false
       | c :: ns2 => decide (c ≠ '/') && toksMatchAux fuel (.star :: ts) ns2)
  | fuel + 1, t :: ts, c :: ns2 => tokMatch t c && toksMatchAux fuel ts ns2
  | _ + 1, _ :: _, [] => false

def toksMatch (ts : List GlobTok) (ns : List Char) : Bool :=
  toksMatchAux (ts.length + ns.length + 1) ts ns

/-- `matches(pattern, name)` from the source: `filepath.Match` with any
error collapsed to `false`. -/
def matchesFn (pat name : String) : Bool :=
  match parseGlob pat with
  | none => false
  | some ts => toksMatch ts name.data

/-- A string without the path separator (true of every real directory
entry name). -/
def sepFree (s : String) : Bool := s.data.all (fun c => c ≠ '/')

/-! ### Data model -/

/-- The three `os.FileInfo` methods the watcher uses: `Name()`,
`ModTime()` (modelled as an integer instant; `After` is `<`) and
`IsDir()`. -/
structure FileInfo where
  name : String
  modTime : Int
  isDir : Bool
deriving DecidableEq

inductive eventType where
  | Added
  | Changed
  | Deleted
deriving DecidableEq

/-- `Event` from the source: the event type, the affected path and the
embedded `os.FileInfo`. -/
structure Event where
  type : eventType
  path : String
  info : FileInfo
deriving DecidableEq

/-- `EventsAt`: a timestamp and the batch of events. -/
structure EventsAt where
  At : Int
  Events : List Event
deriving DecidableEq

/-- `dw.files : map[string]os.FileInfo`, modelled as an association list
whose order stands in for the map's iteration order. -/
abbrev Snapshot := List (String × FileInfo)

def snapLookup : Snapshot → String → Option FileInfo
  | [], _ => none
  | (k, j) :: rest, p => if k = p then some j else snapLookup rest p

def snapInsert : Snapshot → String → FileInfo → Snapshot
  | [], p, i => [(p, i)]
  | (k, j) :: rest, p, i => if k = p then (p, i) :: rest else (k, j) :: snapInsert rest p i

/-! ### The diff engine (`scan2` of the pluggable variant, shared body
with `scan1`) -/

/-- `dw.hasChange(path, info)`: comma-ok style — the event and whether
the file actually changed.  A known path is `Changed` iff the new
modification time is strictly after the stored one
(`info.ModTime().After(oldInfo.ModTime())`); an unknown path is `Added`. -/
def hasChange (files : Snapshot) (path : String) (info : FileInfo) : Event × Bool :=
  match snapLookup files path with
  | some oldInfo => (⟨eventType.Changed, path, info⟩, decide (oldInfo.modTime < info.modTime))
  | none => (⟨eventType.Added, path, info⟩, true)

/-- The mutable state threaded through one scan pass: `dw.files`, the
`touched` set and the accumulated `changed` events. -/
structure ScanState where
  files : Snapshot
  touched : List String
  changed : List Event
deriving DecidableEq

/-- The shared loop body of `scan1`/`scan2` once an entry has passed the
filter: `if ev, ok := dw.hasChange(path, info); ok { dw.files[path] = info;
changed = append(changed, ev) }; touched[path] = true`. -/
def statStep (st : ScanState) (path : String) (info : FileInfo) : ScanState :=
  let r := hasChange st.files path info
  let st1 := if r.2 then
      { st with files := snapInsert st.files path info, changed := st.changed ++ [r.1] }
    else st
  { st1 with touched := path :: st1.touched }

/-- One iteration of `scan2`'s entry loop: skip directories and names
that do not match the pattern, otherwise run the shared body. -/
def scanStep (pat : String) (st : ScanState) (path : String) (info : FileInfo) : ScanState :=
  if info.isDir || !(matchesFn pat info.name) then st else statStep st path info

/-- `scan2`'s `for pair := range dw.scan(dw.path)` loop over the entries
the installed scanner delivers.  An entry whose metadata is `none`
models a nil `os.FileInfo`: the loop calls `info.IsDir()` on it without
a guard, a nil-pointer dereference (`none` result). -/
def scanLoop (pat : String) : List (String × Option FileInfo) → ScanState → Option ScanState
  | [], st => some st
  | (_, none) :: _, _ => none
  | (p, some info) :: rest, st => scanLoop pat rest (scanStep pat st p info)

/-- The deletion pass shared by `scan1`/`scan2`: every snapshot entry not
touched in this pass yields a `Deleted` event (appended after the
`Added`/`Changed` events) and is removed from the snapshot. -/
def deletePhase : Snapshot → List String → List Event → Snapshot × List Event
  | [], _, changed => ([], changed)
  | (p, i) :: rest, touched, changed =>
    if p ∈ touched then
      let r := deletePhase rest touched changed
      ((p, i) :: r.1, r.2)
    else
      deletePhase rest touched (changed ++ [⟨eventType.Deleted, p, i⟩])

/-- `dw.scan2()` with the data flow made explicit: takes the pattern,
the snapshot `dw.files`, and the traversal entries, and returns the
updated snapshot together with the emitted events (`none` = panic). -/
def scan2 (pat : String) (files : Snapshot) (entries : List (String × Option FileInfo)) :
    Option (Snapshot × List Event) :=
  match scanLoop pat entries { files := files, touched := [], changed := [] } with
  | none => none
  | some st => some (deletePhase st.files st.touched st.changed)

/-- A path is "touched" by a traversal iff it carries a non-directory
entry whose name matches the pattern. -/
def validPath (pat : String) (es : List (String × Option FileInfo)) (q : String) : Prop :=
  ∃ i, (q, some i) ∈ es ∧ i.isDir = false ∧ matchesFn pat i.name = true

/-! ### Filesystem model and the two traversal strategies

A directory tree as the walk observes it.  A `broken` node is an entry
that appears in its parent's listing but whose `lstat` fails (permission
denied, or it disappeared during the walk): `filepath.Walk` then invokes
the callback with a nil `os.FileInfo` and a non-nil error.  A `dir` with
`readErr` is a directory whose listing (`readDirNames`) fails: the
callback receives the directory's info together with that error. -/

inductive FsNode where
  | file (name : String) (modTime : Int)
  | dir (name : String) (modTime : Int) (readErr : Bool) (children : List FsNode)
  | broken (name : String)

def fsName : FsNode → String
  | .file n _ => n
  | .dir n _ _ _ => n
  | .broken n => n

/-- `os.Stat`/`lstat` on a node: `none` is a stat error. -/
def fsInfo : FsNode → Option FileInfo
  | .file n t => some ⟨n, t, false⟩
  | .dir n t _ _ => some ⟨n, t, true⟩
  | .broken _ => none

/-- `filepath.Join(dir, name)` (paths here are opaque keys, so plain
concatenation with the separator is an adequate model). -/
def pathJoin (d n : String) : String := d ++ "/" ++ n

mutual

/-- `filepath.Walk` with `recScanner`'s callback
(`c <- wrapFn(path, info); return err`).  Returns the entries sent on
the channel, in order, together with the error the walk propagates
upward (`true` = non-nil).  Because the callback returns the error it
was handed, a stat failure on an entry or a listing failure on a
directory makes the walk return that error, aborting the traversal of
all remaining siblings; the entries already sent are still delivered. -/
def recWalkNode : String → FsNode → List (String × Option FileInfo) × Bool
  | p, .file n t => ([(p, some ⟨n, t, false⟩)], false)
  | p, .dir n t rerr cs =>
    if rerr then ([(p, some ⟨n, t, true⟩)], true)
    else
      let r := recWalkList p cs
      ((p, some ⟨n, t, true⟩) :: r.1, r.2)
  | p, .broken _ => ([(p, none)], true)

/-- The sibling loop of `filepath.Walk` under `recScanner`'s callback. -/
def recWalkList : String → List FsNode → List (String × Option FileInfo) × Bool
  | _, [] => ([], false)
  | p, c :: cs =>
    let r := recWalkNode (pathJoin p (fsName c)) c
    if r.2 then r
    else
      let r2 := recWalkList p cs
      (r.1 ++ r2.1, r2.2)

end

/-- `recScanner(path)`: the entries `filepath.Walk` delivers over the
channel (every visited entry is forwarded, nil infos included). -/
def recScanner (path : String) (root : FsNode) : List (String × Option FileInfo) :=
  (recWalkNode path root).1

/-- The names `filepath.Glob` sees: the immediate children of the root
if it is a readable directory, nothing otherwise (`Glob` swallows
listing errors).  Go sorts the listing; both watcher variants go through
the same `Glob`, so the shared listing order is modelled as tree order. -/
def globChildren : FsNode → List FsNode
  | .dir _ _ false cs => cs
  | _ => []

/-- `filepath.Glob(filepath.Join(path, pat))` for a pattern without a
path separator: the children whose base name matches, as full paths.
Broken entries appear in the listing (`Glob` does not stat them). -/
def globPaths (path pat : String) (root : FsNode) : List (String × FsNode) :=
  ((globChildren root).filter (fun c => matchesFn pat (fsName c))).map
    (fun c => (pathJoin path (fsName c), c))

/-- `globScanner(path)`: `Glob(Join(path, "*"))`, then `os.Stat` each
result, silently skipping entries whose stat fails. -/
def globScanner (path : String) (root : FsNode) : List (String × Option FileInfo) :=
  (globPaths path "*" root).filterMap
    (fun x => match fsInfo x.2 with
      | none => none
      | some i => some (x.1, some i))

mutual

/-- An error-free subtree: no broken entries and no unreadable
directories, so `filepath.Walk` never hands the callback an error. -/
def fsOk : FsNode → Bool
  | .file _ _ => true
  | .dir _ _ rerr cs => !rerr && fsOkList cs
  | .broken _ => false

def fsOkList : List FsNode → Bool
  | [] => true
  | c :: cs => fsOk c && fsOkList cs

end

/-! ### The inline-walk variant (`scan1` from `env.go`'s watcher file) -/

mutual

/-- `filepath.Walk` with `scan1`'s inline callback.  The callback runs
the filter and the shared body directly; on a directory (even one whose
listing failed) it returns nil early, so a listing error is swallowed
and the walk continues with the siblings.  On a nil info (stat failure)
`info.IsDir()` dereferences nil: the whole scan panics (`none`). -/
def walk1Node (pat : String) : String → FsNode → ScanState → Option ScanState
  | p, .file n t, st => some (scanStep pat st p ⟨n, t, false⟩)
  | p, .dir n t rerr cs, st =>
    let st1 := scanStep pat st p ⟨n, t, true⟩
    if rerr then some st1 else walk1List pat p cs st1
  | _, .broken _, _ => none

/-- The sibling loop of `filepath.Walk` under `scan1`'s callback. -/
def walk1List (pat : String) : String → List FsNode → ScanState → Option ScanState
  | _, [], st => some st
  | p, c :: cs, st =>
    match walk1Node pat (pathJoin p (fsName c)) c st with
    | none => none
    | some st2 => walk1List pat p cs st2

end

/-- `scan1`'s non-recursive branch: iterate over the `Glob` matches,
`os.Stat` each, skip stat errors and directories, then run the shared
body (the pattern was already applied by `Glob`). -/
def scan1GlobLoop : List (String × FsNode) → ScanState → ScanState
  | [], st => st
  | (p, c) :: rest, st =>
    match fsInfo c with
    | none => scan1GlobLoop rest st
    | some info =>
      if info.isDir then scan1GlobLoop rest st else scan1GlobLoop rest (statStep st p info)

/-- `dw.scan1()` of the inline-walk watcher, with the watcher fields
(`Recursive`, `Pattern`, `path`, `files`) and the directory contents
made explicit. -/
def scan1 (recursive : Bool) (pat path : String) (root : FsNode) (files : Snapshot) :
    Option (Snapshot × List Event) :=
  match (if recursive then walk1Node pat path root { files := files, touched := [], changed := [] }
         else some (scan1GlobLoop (globPaths path pat root)
                      { files := files, touched := [], changed := [] })) with
  | none => none
  | some st => some (deletePhase st.files st.touched st.changed)

/-- `dw.scan2()` of the pluggable variant with the scanner `Start`
selects from the `Recursive` flag (`recScanner` or `globScanner`). -/
def scan2Run (recursive : Bool) (pat path : String) (root : FsNode) (files : Snapshot) :
    Option (Snapshot × List Event) :=
  scan2 pat files (if recursive then recScanner path root else globScanner path root)

/-! ### Watcher lifecycle (`New`, `Start`, `Stop`, `Running`, observers) -/

/-- Observers are channels; the model identifies them by an id and
renders a delivery as an (observer, batch) pair. -/
abbrev Observer := Nat

/-- The value of the watcher's `scan` field: which scanning function is
installed. -/
inductive ScanFn where
  | globScan
  | recScan
deriving DecidableEq

def runScanFn : ScanFn → String → FsNode → List (String × Option FileInfo)
  | .globScan, p, root => globScanner p root
  | .recScan, p, root => recScanner p root

/-- The `directoryWatcher` struct.  `ticker` is the `*time.Ticker`
handle: `none` is the nil pointer ("not running"). -/
structure directoryWatcher where
  Interval : Nat
  Recursive : Bool
  Pattern : String
  scan : ScanFn
  path : String
  files : Snapshot
  ticker : Option Unit
  observers : List Observer
  Preload : Bool
deriving DecidableEq

/-- `New(path)`: stat the path, fail on a stat error or a
non-directory, otherwise build the default watcher (interval 2000ms,
pattern `*`, non-recursive glob scanner, empty snapshot, no ticker). -/
def New (path : String) (root : FsNode) : Option directoryWatcher :=
  match fsInfo root with
  | none => none
  | some stat =>
    if !stat.isDir then none
    else some { Interval := 2000, Recursive := false, Pattern := "*", scan := ScanFn.globScan,
                path := path, files := [], ticker := none, observers := [], Preload := false }

/-- `dw.notify(evAt)`: an empty batch is dropped without side effects;
otherwise the batch is sent to each observer channel in list
(registration) order. -/
def notify (observers : List Observer) (evAt : EventsAt) : List (Observer × EventsAt) :=
  if evAt.Events.length = 0 then [] else observers.map (fun ch => (ch, evAt))

/-- `dw.AddObserver(obs)` (and `AddNewObserver`): append to the
observer list, so list order is registration order. -/
def AddObserver (dw : directoryWatcher) (obs : Observer) : directoryWatcher :=
  { dw with observers := dw.observers ++ [obs] }

/-- `dw.Start()` modelled up to the completion of the goroutine's first
scan/notify (the subsequent ticker loop repeats `scan2`/`notify`).  A
running watcher (`ticker != nil`) returns immediately.  Otherwise the
recursive scanner is installed if requested, one scan runs, its batch is
delivered unless `Preload` is set, and the ticker is created. -/
def Start (dw : directoryWatcher) (root : FsNode) (now : Int) :
    Option (directoryWatcher × List (Observer × EventsAt)) :=
  match dw.ticker with
  | some _ => some (dw, [])
  | none =>
    let dw1 := if dw.Recursive then { dw with scan := ScanFn.recScan } else dw
    match scan2 dw1.Pattern dw1.files (runScanFn dw1.scan dw1.path root) with
    | none => none
    | some (files2, evs) =>
      let sends := if dw1.Preload then [] else notify dw1.observers { At := now, Events := evs }
      some ({ dw1 with files := files2, ticker := some () }, sends)

/-- The traversal entries `Start`'s first scan consumes. -/
def startEntries (dw : directoryWatcher) (root : FsNode) : List (String × Option FileInfo) :=
  if dw.Recursive then recScanner dw.path root else runScanFn dw.scan dw.path root

/-- `dw.Stop()`: `dw.ticker.Stop(); dw.ticker = nil`.  There is no nil
guard: calling it while the ticker is nil dereferences the nil
`*time.Ticker` (`none` result). -/
def Stop (dw : directoryWatcher) : Option directoryWatcher :=
  match dw.ticker with
  | none => none
  | some _ => some { dw with ticker := none }

/-- `dw.Running()`: whether the ticker handle is non-nil. -/
def Running (dw : directoryWatcher) : Bool := dw.ticker.isSome

/-! ### Snapshot lemmas -/

theorem snapLookup_insert (fs : Snapshot) (p : String) (i : FileInfo) (q : String) :
    snapLookup (snapInsert fs p i) q = if p = q then some i else snapLookup fs q := by
  induction fs with
  | nil => simp [snapInsert, snapLookup]
  | cons e rest ih =>
    obtain ⟨k, j⟩ := e
    by_cases hk : k = p
    · subst hk
      simp only [snapInsert, if_pos rfl, snapLookup]
      by_cases hq : k = q
      · subst hq; simp [snapLookup]
      · simp [snapLookup, hq]
    · simp only [snapInsert, if_neg hk, snapLookup]
      by_cases hq : k = q
      · subst hq
        have hpq : ¬ (p = k) := fun h => hk h.symm
        simp [snapLookup, hpq]
      · simp [hq, ih]

theorem snapLookup_isSome_iff (fs : Snapshot) (p : String) :
    (snapLookup fs p).isSome = true ↔ p ∈ fs.map Prod.fst := by
  induction fs with
  | nil => simp [snapLookup]
  | cons e rest ih =>
    obtain ⟨k, j⟩ := e
    by_cases hk : k = p
    · subst hk; simp [snapLookup]
    · simp [snapLookup, hk, ih, Ne.symm hk]

theorem snapLookup_eq_none_iff (fs : Snapshot) (p : String) :
    snapLookup fs p = none ↔ p ∉ fs.map Prod.fst := by
  rw [← snapLookup_isSome_iff]
  cases h : snapLookup fs p <;> simp [h]

theorem snapInsert_mem_keys (fs : Snapshot) (p : String) (i : FileInfo) (q : String) :
    q ∈ (snapInsert fs p i).map Prod.fst ↔ q = p ∨ q ∈ fs.map Prod.fst := by
  induction fs with
  | nil => simp [snapInsert]
  | cons e rest ih =>
    obtain ⟨k, j⟩ := e
    by_cases hk : k = p
    · subst hk; simp [snapInsert]
    · simp [snapInsert, hk, ih]; tauto

theorem snapInsert_nodup (fs : Snapshot) (p : String) (i : FileInfo)
    (h : (fs.map Prod.fst).Nodup) : ((snapInsert fs p i).map Prod.fst).Nodup := by
  induction fs with
  | nil => simp [snapInsert]
  | cons e rest ih =>
    obtain ⟨k, j⟩ := e
    simp only [List.map_cons, List.nodup_cons] at h
    by_cases hk : k = p
    · subst hk
      simpa [snapInsert, List.nodup_cons] using h
    · simp only [snapInsert, if_neg hk, List.map_cons, List.nodup_cons]
      refine ⟨fun hmem => ?_, ih h.2⟩
      rw [snapInsert_mem_keys] at hmem
      rcases hmem with h1 | h1
      · exact hk h1
      · exact h.1 h1

theorem snapLookup_filter_mem (fs : Snapshot) (t : List String) (p : String) (hp : p ∈ t) :
    snapLookup (fs.filter (fun e => decide (e.1 ∈ t))) p = snapLookup fs p := by
  induction fs with
  | nil => simp
  | cons e rest ih =>
    obtain ⟨k, j⟩ := e
    by_cases hk : k = p
    · subst hk
      simp [List.filter_cons, hp, snapLookup]
    · by_cases hkt : k ∈ t
      · simp [List.filter_cons, hkt, snapLookup, hk, ih]
      · simp [List.filter_cons, hkt, snapLookup, hk, ih]

theorem snapLookup_filter_not_mem (fs : Snapshot) (t : List String) (p : String) (hp : p ∉ t) :
    snapLookup (fs.filter (fun e => decide (e.1 ∈ t))) p = none := by
  rw [snapLookup_eq_none_iff]
  intro hmem
  simp only [List.mem_map, List.mem_filter] at hmem
  obtain ⟨e, ⟨_, he⟩, hfst⟩ := hmem
  rw [hfst] at he
  exact hp (by simpa using he)

/-! ### `deletePhase` characterisation -/

theorem deletePhase_fst (fs : Snapshot) (t : List String) (ch : List Event) :
    (deletePhase fs t ch).1 = fs.filter (fun e => decide (e.1 ∈ t)) := by
  induction fs generalizing ch with
  | nil => simp [deletePhase]
  | cons e rest ih =>
    obtain ⟨p, i⟩ := e
    by_cases hp : p ∈ t
    · simp [deletePhase, hp, List.filter_cons, ih]
    · simp [deletePhase, hp, List.filter_cons, ih]

theorem deletePhase_snd (fs : Snapshot) (t : List String) (ch : List Event) :
    (deletePhase fs t ch).2 =
      ch ++ (fs.filter (fun e => decide (e.1 ∉ t))).map
        (fun e => ⟨eventType.Deleted, e.1, e.2⟩) := by
  induction fs generalizing ch with
  | nil => simp [deletePhase]
  | cons e rest ih =>
    obtain ⟨p, i⟩ := e
    by_cases hp : p ∈ t
    · simp [deletePhase, hp, List.filter_cons, ih]
    · simp [deletePhase, hp, List.filter_cons, ih]

/-! ### Step lemmas -/

/-- The events one run of the shared body appends, as a function of the
snapshot it sees. -/
def newEvts (fs : Snapshot) (p : String) (i : FileInfo) : List Event :=
  match snapLookup fs p with
  | none => [⟨eventType.Added, p, i⟩]
  | some old => if old.modTime < i.modTime then [⟨eventType.Changed, p, i⟩] else []

theorem statStep_touched (st : ScanState) (p : String) (i : FileInfo) :
    (statStep st p i).touched = p :: st.touched := by
  unfold statStep
  by_cases h : (hasChange st.files p i).2 <;> simp [h]

theorem statStep_changed (st : ScanState) (p : String) (i : FileInfo) :
    (statStep st p i).changed = st.changed ++ newEvts st.files p i := by
  unfold statStep newEvts hasChange
  cases h : snapLookup st.files p with
  | none => simp [h]
  | some old =>
    by_cases hlt : old.modTime < i.modTime <;> simp [h, hlt]

theorem statStep_files (st : ScanState) (p : String) (i : FileInfo) :
    (statStep st p i).files =
      if (hasChange st.files p i).2 then snapInsert st.files p i else st.files := by
  unfold statStep
  by_cases h : (hasChange st.files p i).2 <;> simp [h]

theorem statStep_lookup_ne (st : ScanState) (p : String) (i : FileInfo) (q : String)
    (hq : q ≠ p) : snapLookup (statStep st p i).files q = snapLookup st.files q := by
  rw [statStep_files]
  by_cases h : (hasChange st.files p i).2
  · simp only [h, if_true]
    rw [snapLookup_insert, if_neg (fun hpq => hq hpq.symm)]
  · simp [h]

theorem statStep_lookup_self (st : ScanState) (p : String) (i : FileInfo) :
    ∃ j, snapLookup (statStep st p i).files p = some j ∧ ¬ (j.modTime < i.modTime) := by
  rw [statStep_files]
  unfold hasChange
  cases h : snapLookup st.files p with
  | none => exact ⟨i, by simp [snapLookup_insert], by simp⟩
  | some old =>
    by_cases hlt : old.modTime < i.modTime
    · exact ⟨i, by simp [h, hlt, snapLookup_insert], by simp⟩
    · exact ⟨old, by simp [h, hlt], hlt⟩

theorem statStep_isSome_self (st : ScanState) (p : String) (i : FileInfo) :
    (snapLookup (statStep st p i).files p).isSome = true := by
  obtain ⟨j, hj, _⟩ := statStep_lookup_self st p i
  simp [hj]

theorem newEvts_path (fs : Snapshot) (p : String) (i : FileInfo) :
    ∀ e ∈ newEvts fs p i, e.path = p ∧ e.type ≠ eventType.Deleted := by
  unfold newEvts
  cases h : snapLookup fs p with
  | none => simp
  | some old => by_cases hlt : old.modTime < i.modTime <;> simp [hlt]

theorem scanStep_skip (pat : String) (st : ScanState) (p : String) (i : FileInfo)
    (h : i.isDir = true ∨ matchesFn pat i.name = false) :
    scanStep pat st p i = st := by
  unfold scanStep
  rcases h with h | h <;> simp [h]

theorem scanStep_valid (pat : String) (st : ScanState) (p : String) (i : FileInfo)
    (hdir : i.isDir = false) (hm : matchesFn pat i.name = true) :
    scanStep pat st p i = statStep st p i := by
  unfold scanStep
  simp [hdir, hm]

/-! ### `scanLoop` invariants -/

theorem validPath_cons_some (pat : String) (p : String) (i : FileInfo)
    (rest : List (String × Option FileInfo)) (q : String) :
    validPath pat ((p, some i) :: rest) q ↔
      ((q = p ∧ i.isDir = false ∧ matchesFn pat i.name = true) ∨ validPath pat rest q) := by
  unfold validPath
  constructor
  · rintro ⟨j, hj, hdir, hm⟩
    rcases List.mem_cons.1 hj with h | h
    · have hq : q = p := congrArg Prod.fst h
      have hj2 : j = i := Option.some.inj (congrArg Prod.snd h)
      subst hj2
      exact Or.inl ⟨hq, hdir, hm⟩
    · exact Or.inr ⟨j, h, hdir, hm⟩
  · rintro (⟨hq, hdir, hm⟩ | ⟨j, hj, hdir, hm⟩)
    · exact ⟨i, by simp [hq], hdir, hm⟩
    · exact ⟨j, List.mem_cons_of_mem _ hj, hdir, hm⟩

theorem scanLoop_append (pat : String) (l1 l2 : List (String × Option FileInfo))
    (st : ScanState) :
    scanLoop pat (l1 ++ l2) st = (scanLoop pat l1 st).bind (fun st2 => scanLoop pat l2 st2) := by
  induction l1 generalizing st with
  | nil => simp [scanLoop]
  | cons x rest ih =>
    obtain ⟨p, oi⟩ := x
    cases oi with
    | none => simp [scanLoop]
    | some i => simp [scanLoop, ih]

theorem scanLoop_success_isSome (pat : String) (es : List (String × Option FileInfo))
    (st st' : ScanState) (h : scanLoop pat es st = some st') :
    ∀ x ∈ es, x.2.isSome = true := by
  induction es generalizing st with
  | nil => simp
  | cons x rest ih =>
    obtain ⟨p, oi⟩ := x
    cases oi with
    | none => simp [scanLoop] at h
    | some i =>
      simp only [scanLoop] at h
      intro y hy
      rcases List.mem_cons.1 hy with hy | hy
      · simp [hy]
      · exact ih _ h y hy

/-- The combined invariant of one pass of the entry loop: which paths
end up touched, how the event list grows, and how the snapshot changes. -/
theorem scanLoop_spec (pat : String) (es : List (String × Option FileInfo)) :
    ∀ (st st' : ScanState), scanLoop pat es st = some st' →
      (∀ q, q ∈ st'.touched ↔ q ∈ st.touched ∨ validPath pat es q)
      ∧ (∃ new, st'.changed = st.changed ++ new ∧
          ∀ e ∈ new, validPath pat es e.path ∧ e.type ≠ eventType.Deleted)
      ∧ (∀ q, ¬ validPath pat es q → snapLookup st'.files q = snapLookup st.files q)
      ∧ (∀ q, (snapLookup st'.files q).isSome = true ↔
          (snapLookup st.files q).isSome = true ∨ validPath pat es q) := by
  induction es with
  | nil =>
    intro st st' h
    simp only [scanLoop, Option.some.injEq] at h
    subst h
    simp [validPath]
  | cons x rest ih =>
    obtain ⟨p, oi⟩ := x
    cases oi with
    | none => intro st st' h; simp [scanLoop] at h
    | some i =>
      intro st st' h
      simp only [scanLoop] at h
      by_cases hvalid : i.isDir = false ∧ matchesFn pat i.name = true
      · obtain ⟨hdir, hm⟩ := hvalid
        rw [scanStep_valid pat st p i hdir hm] at h
        obtain ⟨htch, ⟨new, hnew, hnewP⟩, hpres, hsome⟩ := ih (statStep st p i) st' h
        refine ⟨?_, ?_, ?_, ?_⟩
        · intro q
          rw [htch q, statStep_touched, List.mem_cons, validPath_cons_some]
          constructor
          · rintro ((rfl | h1) | h1)
            · exact Or.inr (Or.inl ⟨rfl, hdir, hm⟩)
            · exact Or.inl h1
            · exact Or.inr (Or.inr h1)
          · rintro (h1 | (⟨rfl, _, _⟩ | h1))
            · exact Or.inl (Or.inr h1)
            · exact Or.inl (Or.inl rfl)
            · exact Or.inr h1
        · refine ⟨newEvts st.files p i ++ new, ?_, ?_⟩
          · rw [hnew, statStep_changed, List.append_assoc]
          · intro e he
            rcases List.mem_append.1 he with he | he
            · obtain ⟨hp, ht⟩ := newEvts_path st.files p i e he
              exact ⟨(validPath_cons_some pat p i rest e.path).2 (Or.inl ⟨hp, hdir, hm⟩), ht⟩
            · obtain ⟨hv, ht⟩ := hnewP e he
              exact ⟨(validPath_cons_some pat p i rest e.path).2 (Or.inr hv), ht⟩
        · intro q hq
          rw [validPath_cons_some] at hq
          have hq1 : ¬ (q = p ∧ i.isDir = false ∧ matchesFn pat i.name = true) :=
            fun h1 => hq (Or.inl h1)
          have hq2 : ¬ validPath pat rest q := fun h1 => hq (Or.inr h1)
          have hqp : q ≠ p := fun h1 => hq1 ⟨h1, hdir, hm⟩
          rw [hpres q hq2, statStep_lookup_ne st p i q hqp]
        · intro q
          by_cases hqp : q = p
          · subst hqp
            rw [hsome q, validPath_cons_some]
            constructor
            · intro _; exact Or.inr (Or.inl ⟨rfl, hdir, hm⟩)
            · intro _; exact Or.inl (statStep_isSome_self st q i)
          · rw [hsome q, statStep_lookup_ne st p i q hqp, validPath_cons_some]
            constructor
            · rintro (h1 | h1)
              · exact Or.inl h1
              · exact Or.inr (Or.inr h1)
            · rintro (h1 | (⟨hqp2, _, _⟩ | h1))
              · exact Or.inl h1
              · exact absurd hqp2 hqp
              · exact Or.inr h1
      · have hskip : i.isDir = true ∨ matchesFn pat i.name = false := by
          rcases Bool.eq_false_or_eq_true i.isDir with h1 | h1
          · exact Or.inl h1
          · rcases Bool.eq_false_or_eq_true (matchesFn pat i.name) with h2 | h2
            · exact absurd ⟨h1, h2⟩ hvalid
            · exact Or.inr h2
        rw [scanStep_skip pat st p i hskip] at h
        obtain ⟨htch, ⟨new, hnew, hnewP⟩, hpres, hsome⟩ := ih st st' h
        have hvp : ∀ q, validPath pat ((p, some i) :: rest) q ↔ validPath pat rest q := by
          intro q
          rw [validPath_cons_some]
          constructor
          · rintro (⟨_, hdir, hm⟩ | h1)
            · exact absurd ⟨hdir, hm⟩ hvalid
            · exact h1
          · exact Or.inr
        exact ⟨fun q => by rw [htch q, hvp q],
          ⟨new, hnew, fun e he => ⟨(hvp e.path).2 (hnewP e he).1, (hnewP e he).2⟩⟩,
          fun q hq => hpres q (fun hr => hq ((hvp q).2 hr)),
          fun q => by rw [hsome q, hvp q]⟩

theorem validPath_mem (pat : String) (l : List (String × Option FileInfo)) (q : String)
    (h : validPath pat l q) : q ∈ l.map Prod.fst := by
  obtain ⟨i, hi, _, _⟩ := h
  exact List.mem_map.2 ⟨(q, some i), hi, rfl⟩

theorem statStep_nodup (st : ScanState) (p : String) (i : FileInfo)
    (hn : (st.files.map Prod.fst).Nodup) : ((statStep st p i).files.map Prod.fst).Nodup := by
  rw [statStep_files]
  by_cases h : (hasChange st.files p i).2
  · simpa [h] using snapInsert_nodup st.files p i hn
  · simpa [h] using hn

theorem scanStep_nodup (pat : String) (st : ScanState) (p : String) (i : FileInfo)
    (hn : (st.files.map Prod.fst).Nodup) : ((scanStep pat st p i).files.map Prod.fst).Nodup := by
  unfold scanStep
  split
  · exact hn
  · exact statStep_nodup st p i hn

theorem scanLoop_keys_nodup (pat : String) (es : List (String × Option FileInfo))
    (st st' : ScanState) (h : scanLoop pat es st = some st')
    (hn : (st.files.map Prod.fst).Nodup) : (st'.files.map Prod.fst).Nodup := by
  induction es generalizing st with
  | nil => simp only [scanLoop, Option.some.injEq] at h; subst h; exact hn
  | cons x rest ih =>
    obtain ⟨p, oi⟩ := x
    cases oi with
    | none => simp [scanLoop] at h
    | some i =>
      simp only [scanLoop] at h
      exact ih (scanStep pat st p i) h (scanStep_nodup pat st p i hn)

/-- The snapshot after a scan contains a path iff the traversal touched
it (a non-directory entry matching the pattern). -/
theorem scan2_lookup_isSome (pat : String) (files : Snapshot)
    (es : List (String × Option FileInfo)) (files2 : Snapshot) (evs : List Event)
    (h : scan2 pat files es = some (files2, evs)) :
    ∀ p, (snapLookup files2 p).isSome = true ↔ validPath pat es p := by
  unfold scan2 at h
  cases hloop : scanLoop pat es { files := files, touched := [], changed := [] } with
  | none => rw [hloop] at h; simp at h
  | some st =>
    rw [hloop] at h
    simp only [Option.some.injEq] at h
    have hf : files2 = st.files.filter (fun e => decide (e.1 ∈ st.touched)) := by
      have h2 := congrArg Prod.fst h
      rw [deletePhase_fst] at h2
      exact h2.symm
    obtain ⟨htch, _, _, hsome⟩ := scanLoop_spec pat es _ st hloop
    intro p
    rw [hf]
    constructor
    · intro hp
      by_cases htp : p ∈ st.touched
      · have h3 := (htch p).1 htp
        simpa using h3
      · rw [snapLookup_filter_not_mem st.files st.touched p htp] at hp
        simp at hp
    · intro hvp
      have htp : p ∈ st.touched := (htch p).2 (Or.inr hvp)
      have hsp : (snapLookup st.files p).isSome = true := (hsome p).2 (Or.inr hvp)
      rw [snapLookup_filter_mem st.files st.touched p htp]
      exact hsp

theorem newEvts_congr (fs fs' : Snapshot) (p : String) (i : FileInfo)
    (h : snapLookup fs p = snapLookup fs' p) : newEvts fs p i = newEvts fs' p i := by
  unfold newEvts
  rw [h]

theorem newEvts_filter_self (fs : Snapshot) (p : String) (i : FileInfo) :
    (newEvts fs p i).filter (fun e => decide (e.path = p)) = newEvts fs p i := by
  unfold newEvts
  cases snapLookup fs p with
  | none => simp
  | some old => by_cases hlt : old.modTime < i.modTime <;> simp [hlt]

/-- What one scan emits for, and stores at, a path with exactly one
valid traversal entry: the events for the path are exactly
`newEvts` of the pre-scan snapshot, and the stored record's
modification time is not older than the entry's. -/
theorem scan2_at_path (pat : String) (files : Snapshot)
    (l1 l2 : List (String × Option FileInfo)) (p : String) (i : FileInfo)
    (files2 : Snapshot) (evs : List Event)
    (hp1 : p ∉ l1.map Prod.fst) (hp2 : p ∉ l2.map Prod.fst)
    (hdir : i.isDir = false) (hm : matchesFn pat i.name = true)
    (hscan : scan2 pat files (l1 ++ (p, some i) :: l2) = some (files2, evs)) :
    evs.filter (fun e => decide (e.path = p)) = newEvts files p i
    ∧ ∃ j, snapLookup files2 p = some j ∧ ¬ (j.modTime < i.modTime) := by
  unfold scan2 at hscan
  cases hloop : scanLoop pat (l1 ++ (p, some i) :: l2)
      { files := files, touched := [], changed := [] } with
  | none => rw [hloop] at hscan; simp at hscan
  | some stF =>
    rw [hloop] at hscan
    simp only [Option.some.injEq] at hscan
    rw [scanLoop_append] at hloop
    cases h1 : scanLoop pat l1 { files := files, touched := [], changed := [] } with
    | none => rw [h1] at hloop; simp at hloop
    | some st1 =>
      rw [h1] at hloop
      simp only [Option.some_bind] at hloop
      simp only [scanLoop] at hloop
      rw [scanStep_valid pat st1 p i hdir hm] at hloop
      obtain ⟨htch1, ⟨new1, hnew1, hnew1P⟩, hpres1, _⟩ := scanLoop_spec pat l1 _ st1 h1
      obtain ⟨htch2, ⟨new2, hnew2, hnew2P⟩, hpres2, _⟩ :=
        scanLoop_spec pat l2 (statStep st1 p i) stF hloop
      have hlook1 : snapLookup st1.files p = snapLookup files p :=
        hpres1 p (fun hv => hp1 (validPath_mem pat l1 p hv))
      have hlookF : snapLookup stF.files p = snapLookup (statStep st1 p i).files p :=
        hpres2 p (fun hv => hp2 (validPath_mem pat l2 p hv))
      have htchF : p ∈ stF.touched := by
        refine (htch2 p).2 (Or.inl ?_)
        rw [statStep_touched]
        exact List.mem_cons_self p st1.touched
      have hevs : evs = stF.changed ++
          (stF.files.filter (fun e => decide (e.1 ∉ stF.touched))).map
            (fun e => ⟨eventType.Deleted, e.1, e.2⟩) := by
        have h2 := congrArg Prod.snd hscan
        rw [deletePhase_snd] at h2
        exact h2.symm
      have hfiles2 : files2 = stF.files.filter (fun e => decide (e.1 ∈ stF.touched)) := by
        have h2 := congrArg Prod.fst hscan
        rw [deletePhase_fst] at h2
        exact h2.symm
      constructor
      · have hchF : stF.changed = new1 ++ newEvts st1.files p i ++ new2 := by
          rw [hnew2, statStep_changed, hnew1]
          simp
        rw [hevs, hchF]
        rw [List.filter_append, List.filter_append, List.filter_append]
        have hf1 : new1.filter (fun e => decide (e.path = p)) = [] := by
          rw [List.filter_eq_nil_iff]
          intro e he
          have := validPath_mem pat l1 e.path (hnew1P e he).1
          simp only [decide_eq_true_eq]
          intro hep
          rw [hep] at this
          exact hp1 this
        have hf2 : new2.filter (fun e => decide (e.path = p)) = [] := by
          rw [List.filter_eq_nil_iff]
          intro e he
          have := validPath_mem pat l2 e.path (hnew2P e he).1
          simp only [decide_eq_true_eq]
          intro hep
          rw [hep] at this
          exact hp2 this
        have hfd : ((stF.files.filter (fun e => decide (e.1 ∉ stF.touched))).map
            (fun e => (⟨eventType.Deleted, e.1, e.2⟩ : Event))).filter
              (fun e => decide (e.path = p)) = [] := by
          rw [List.filter_eq_nil_iff]
          intro e he
          simp only [List.mem_map, List.mem_filter, decide_eq_true_eq] at he
          obtain ⟨a, ⟨_, hat⟩, hae⟩ := he
          simp only [decide_eq_true_eq]
          intro hep
          rw [← hae] at hep
          simp only at hep
          rw [hep] at hat
          exact hat htchF
        rw [hf1, hf2, hfd, newEvts_congr st1.files files p i hlook1, newEvts_filter_self]
        simp
      · obtain ⟨j, hj, hjd⟩ := statStep_lookup_self st1 p i
        refine ⟨j, ?_, hjd⟩
        rw [hfiles2, snapLookup_filter_mem stF.files stF.touched p htchF, hlookF, hj]

theorem nodup_split_path (es : List (String × Option FileInfo)) (p : String)
    (oi : Option FileInfo) (hN : (es.map Prod.fst).Nodup) (hmem : (p, oi) ∈ es) :
    ∃ l1 l2, es = l1 ++ (p, oi) :: l2 ∧ p ∉ l1.map Prod.fst ∧ p ∉ l2.map Prod.fst := by
  obtain ⟨l1, l2, rfl⟩ := List.append_of_mem hmem
  rw [List.map_append, List.map_cons, List.nodup_append] at hN
  obtain ⟨h1, h2, h3⟩ := hN
  rw [List.nodup_cons] at h2
  exact ⟨l1, l2, rfl, fun hp => h3 hp (List.mem_cons_self p _), h2.1⟩

theorem scan2_entries_isSome (pat : String) (files : Snapshot)
    (es : List (String × Option FileInfo)) (r : Snapshot × List Event)
    (h : scan2 pat files es = some r) : ∀ x ∈ es, x.2.isSome = true := by
  unfold scan2 at h
  cases hloop : scanLoop pat es { files := files, touched := [], changed := [] } with
  | none => rw [hloop] at h; simp at h
  | some st => exact scanLoop_success_isSome pat es _ st hloop

/-- A pass over entries the snapshot already dominates (every valid
entry's path is stored with a modification time at least as new) emits
no events and leaves the snapshot untouched. -/
theorem scanLoop_stable (pat : String) (es : List (String × Option FileInfo)) :
    ∀ (fs : Snapshot) (t : List String) (ch : List Event),
      (∀ p i, (p, some i) ∈ es → i.isDir = false → matchesFn pat i.name = true →
        ∃ j, snapLookup fs p = some j ∧ ¬ (j.modTime < i.modTime)) →
      (∀ x ∈ es, x.2.isSome = true) →
      ∃ t2, scanLoop pat es { files := fs, touched := t, changed := ch } =
        some { files := fs, touched := t2, changed := ch } := by
  induction es with
  | nil => exact fun fs t ch _ _ => ⟨t, by simp [scanLoop]⟩
  | cons x rest ih =>
    obtain ⟨p, oi⟩ := x
    cases oi with
    | none =>
      intro fs t ch _ hsome
      exact absurd (hsome (p, none) (List.mem_cons_self _ _)) (by simp)
    | some i =>
      intro fs t ch hdom hsome
      simp only [scanLoop]
      by_cases hvalid : i.isDir = false ∧ matchesFn pat i.name = true
      · obtain ⟨hdir, hm⟩ := hvalid
        rw [scanStep_valid pat _ p i hdir hm]
        obtain ⟨j, hj, hjd⟩ := hdom p i (List.mem_cons_self _ _) hdir hm
        have hs : statStep { files := fs, touched := t, changed := ch } p i =
            { files := fs, touched := p :: t, changed := ch } := by
          unfold statStep hasChange
          simp only [hj]
          simp [hjd]
        rw [hs]
        exact ih fs (p :: t) ch
          (fun q k hk => hdom q k (List.mem_cons_of_mem _ hk))
          (fun y hy => hsome y (List.mem_cons_of_mem _ hy))
      · have hskip : i.isDir = true ∨ matchesFn pat i.name = false := by
          rcases Bool.eq_false_or_eq_true i.isDir with h1 | h1
          · exact Or.inl h1
          · rcases Bool.eq_false_or_eq_true (matchesFn pat i.name) with h2 | h2
            · exact absurd ⟨h1, h2⟩ hvalid
            · exact Or.inr h2
        rw [scanStep_skip pat _ p i hskip]
        exact ih fs t ch (fun q k hk => hdom q k (List.mem_cons_of_mem _ hk))
          (fun y hy => hsome y (List.mem_cons_of_mem _ hy))

/-- The deletion events of one scan, filtered down to a stored but
untouched path, are exactly one `Deleted` event carrying the stored
record. -/
theorem dels_filter_at (fs : Snapshot) (t : List String) (p : String) (old : FileInfo)
    (hn : (fs.map Prod.fst).Nodup) (hl : snapLookup fs p = some old) (hp : p ∉ t) :
    ((fs.filter (fun e => decide (e.1 ∉ t))).map
        (fun e => (⟨eventType.Deleted, e.1, e.2⟩ : Event))).filter
      (fun e => decide (e.path = p)) = [⟨eventType.Deleted, p, old⟩] := by
  induction fs with
  | nil => simp [snapLookup] at hl
  | cons e rest ih =>
    obtain ⟨k, j⟩ := e
    simp only [List.map_cons, List.nodup_cons] at hn
    by_cases hk : k = p
    · subst hk
      have hj : j = old := by simpa [snapLookup] using hl
      rw [hj]
      have hrest : ((rest.filter (fun e => decide (e.1 ∉ t))).map
          (fun e => (⟨eventType.Deleted, e.1, e.2⟩ : Event))).filter
            (fun e => decide (e.path = k)) = [] := by
        rw [List.filter_eq_nil_iff]
        intro e he
        simp only [List.mem_map, List.mem_filter] at he
        obtain ⟨a, ⟨ha, _⟩, hae⟩ := he
        simp only [decide_eq_true_eq]
        intro hep
        rw [← hae] at hep
        simp only at hep
        exact hn.1 (hep ▸ List.mem_map.2 ⟨a, ha, rfl⟩)
      have h1 : ((k, old) :: rest).filter (fun e => decide (e.1 ∉ t)) =
          (k, old) :: rest.filter (fun e => decide (e.1 ∉ t)) := by
        rw [List.filter_cons, if_pos (by simpa using hp)]
      rw [h1, List.map_cons, List.filter_cons, if_pos (by simp)]
      rw [hrest]
    · have hl2 : snapLookup rest p = some old := by
        simpa [snapLookup, hk] using hl
      by_cases hkt : k ∈ t
      · have h1 : ((k, j) :: rest).filter (fun e => decide (e.1 ∉ t)) =
            rest.filter (fun e => decide (e.1 ∉ t)) := by
          rw [List.filter_cons, if_neg (by simpa using hkt)]
        rw [h1]
        exact ih hn.2 hl2
      · have h1 : ((k, j) :: rest).filter (fun e => decide (e.1 ∉ t)) =
            (k, j) :: rest.filter (fun e => decide (e.1 ∉ t)) := by
          rw [List.filter_cons, if_pos (by simpa using hkt)]
        rw [h1, List.map_cons, List.filter_cons, if_neg (by simpa using hk)]
        exact ih hn.2 hl2

/-! ### Claims C1-C4: the diff engine -/

/-- C1: for every scan, a path present in the fresh traversal (as a
non-directory entry matching the pattern) but absent from the snapshot
yields exactly one `Added` event, and a path already in the snapshot
yields a `Changed` event iff the new record's modification time is
strictly after the stored one — never on equal or regressed times. -/
theorem C1_change_detection (pat : String) (files : Snapshot)
    (es : List (String × Option FileInfo)) (p : String) (i : FileInfo)
    (files2 : Snapshot) (evs : List Event)
    (hN : (es.map Prod.fst).Nodup)
    (hmem : (p, some i) ∈ es) (hdir : i.isDir = false) (hm : matchesFn pat i.name = true)
    (hscan : scan2 pat files es = some (files2, evs)) :
    (snapLookup files p = none →
      evs.filter (fun e => decide (e.path = p)) = [⟨eventType.Added, p, i⟩])
    ∧ (∀ old, snapLookup files p = some old →
        evs.filter (fun e => decide (e.path = p)) =
          if old.modTime < i.modTime then [⟨eventType.Changed, p, i⟩] else []) := by
  obtain ⟨l1, l2, rfl, hp1, hp2⟩ := nodup_split_path es p (some i) hN hmem
  obtain ⟨hfilter, _⟩ := scan2_at_path pat files l1 l2 p i files2 evs hp1 hp2 hdir hm hscan
  constructor
  · intro h0
    rw [hfilter]
    simp [newEvts, h0]
  · intro old hold
    rw [hfilter]
    simp [newEvts, hold]

theorem C1_witness :
    [(⟨eventType.Changed, "r/a", ⟨"a", 2, false⟩⟩ : Event)].filter
        (fun e => decide (e.path = "r/a")) =
      if (1 : Int) < 2 then [⟨eventType.Changed, "r/a", ⟨"a", 2, false⟩⟩] else [] :=
  (C1_change_detection "*" [("r/a", ⟨"a", 1, false⟩)] [("r/a", some ⟨"a", 2, false⟩)] "r/a"
    ⟨"a", 2, false⟩ [("r/a", ⟨"a", 2, false⟩)] [⟨eventType.Changed, "r/a", ⟨"a", 2, false⟩⟩]
    (by decide) (by decide) (by decide) (by decide) (by decide)).2 ⟨"a", 1, false⟩ (by decide)

/-- C2: after each scan, the snapshot contains exactly the set of
non-directory paths that matched the configured pattern in that scan's
traversal; entries for paths no longer delivered or matching are gone. -/
theorem C2_snapshot_invariant (pat : String) (files : Snapshot)
    (es : List (String × Option FileInfo)) (files2 : Snapshot) (evs : List Event)
    (hscan : scan2 pat files es = some (files2, evs)) :
    ∀ p, (snapLookup files2 p).isSome = true ↔
      ∃ i, (p, some i) ∈ es ∧ i.isDir = false ∧ matchesFn pat i.name = true :=
  scan2_lookup_isSome pat files es files2 evs hscan

theorem C2_witness :
    ((snapLookup [("r/a", (⟨"a", 1, false⟩ : FileInfo))] "r/old").isSome = true ↔
      ∃ i, ("r/old", some i) ∈ [("r/a", some (⟨"a", 1, false⟩ : FileInfo))] ∧
        i.isDir = false ∧ matchesFn "*" i.name = true) :=
  C2_snapshot_invariant "*" [("r/old", ⟨"old", 0, false⟩)] [("r/a", some ⟨"a", 1, false⟩)]
    [("r/a", ⟨"a", 1, false⟩)]
    [⟨eventType.Added, "r/a", ⟨"a", 1, false⟩⟩, ⟨eventType.Deleted, "r/old", ⟨"old", 0, false⟩⟩]
    (by decide) "r/old"

/-- C3: scanning the same unchanged traversal twice in a row produces
zero events on the second scan and leaves the snapshot unchanged. -/
theorem C3_idempotent (pat : String) (files files1 : Snapshot)
    (es : List (String × Option FileInfo)) (evs1 : List Event)
    (hN : (es.map Prod.fst).Nodup)
    (h1 : scan2 pat files es = some (files1, evs1)) :
    scan2 pat files1 es = some (files1, []) := by
  have hsome := scan2_entries_isSome pat files es (files1, evs1) h1
  have hdom : ∀ p i, (p, some i) ∈ es → i.isDir = false → matchesFn pat i.name = true →
      ∃ j, snapLookup files1 p = some j ∧ ¬ (j.modTime < i.modTime) := by
    intro p i hmem hdir hm
    obtain ⟨l1, l2, rfl, hp1, hp2⟩ := nodup_split_path es p (some i) hN hmem
    exact (scan2_at_path pat files l1 l2 p i files1 evs1 hp1 hp2 hdir hm h1).2
  have hkeys := scan2_lookup_isSome pat files es files1 evs1 h1
  obtain ⟨t2, hloop⟩ := scanLoop_stable pat es files1 [] [] hdom hsome
  obtain ⟨htch, _, _, _⟩ := scanLoop_spec pat es _ _ hloop
  have hallkeys : ∀ e ∈ files1, e.1 ∈ t2 := by
    intro e he
    have hmem2 : e.1 ∈ files1.map Prod.fst := List.mem_map.2 ⟨e, he, rfl⟩
    have hsome2 : (snapLookup files1 e.1).isSome = true :=
      (snapLookup_isSome_iff files1 e.1).2 hmem2
    have hvp : validPath pat es e.1 := (hkeys e.1).1 hsome2
    have h3 := (htch e.1).2 (Or.inr hvp)
    simpa using h3
  have hfst : (deletePhase files1 t2 []).1 = files1 := by
    rw [deletePhase_fst, List.filter_eq_self]
    intro a ha
    simpa using hallkeys a ha
  have hsnd : (deletePhase files1 t2 []).2 = [] := by
    rw [deletePhase_snd]
    simp only [List.nil_append, List.map_eq_nil_iff, List.filter_eq_nil_iff]
    intro a ha
    simpa using hallkeys a ha
  unfold scan2
  rw [hloop]
  show some (deletePhase files1 t2 []) = some (files1, [])
  have heq : deletePhase files1 t2 [] = ((files1, []) : Snapshot × List Event) :=
    Prod.ext_iff.2 ⟨hfst, hsnd⟩
  rw [heq]

theorem C3_witness :
    scan2 "*" [("r/a", ⟨"a", 1, false⟩)] [("r/a", some ⟨"a", 1, false⟩)] =
      some ([("r/a", ⟨"a", 1, false⟩)], []) :=
  C3_idempotent "*" [] [("r/a", ⟨"a", 1, false⟩)] [("r/a", some ⟨"a", 1, false⟩)]
    [⟨eventType.Added, "r/a", ⟨"a", 1, false⟩⟩] (by decide) (by decide)

/-- C4: a path stored in the snapshot that the scan's traversal does not
touch yields exactly one `Deleted` event; every `Deleted` event comes
after all `Added`/`Changed` events in the batch; and the updated
snapshot no longer contains the path. -/
theorem C4_deletion (pat : String) (files : Snapshot) (es : List (String × Option FileInfo))
    (files2 : Snapshot) (evs : List Event) (p : String) (old : FileInfo)
    (hNk : (files.map Prod.fst).Nodup)
    (hold : snapLookup files p = some old)
    (huntouch : ∀ i, (p, some i) ∈ es → i.isDir = true ∨ matchesFn pat i.name = false)
    (hscan : scan2 pat files es = some (files2, evs)) :
    evs.filter (fun e => decide (e.path = p)) = [⟨eventType.Deleted, p, old⟩]
    ∧ snapLookup files2 p = none
    ∧ ∃ evs1 evs2, evs = evs1 ++ evs2 ∧ (∀ e ∈ evs1, e.type ≠ eventType.Deleted)
        ∧ (∀ e ∈ evs2, e.type = eventType.Deleted) := by
  unfold scan2 at hscan
  cases hloop : scanLoop pat es { files := files, touched := [], changed := [] } with
  | none => rw [hloop] at hscan; simp at hscan
  | some st =>
    rw [hloop] at hscan
    simp only [Option.some.injEq] at hscan
    have hnv : ¬ validPath pat es p := by
      rintro ⟨i, hi, hdir, hm⟩
      rcases huntouch i hi with h | h
      · rw [h] at hdir; exact absurd hdir (by simp)
      · rw [h] at hm; exact absurd hm (by simp)
    obtain ⟨htch, ⟨new, hnew, hnewP⟩, hpres, _⟩ := scanLoop_spec pat es _ st hloop
    have hptch : p ∉ st.touched := by
      intro hp
      have h3 := (htch p).1 hp
      simp only [List.not_mem_nil, false_or] at h3
      exact hnv h3
    have hlookst : snapLookup st.files p = some old := by
      rw [hpres p hnv]; exact hold
    have hnodup : (st.files.map Prod.fst).Nodup :=
      scanLoop_keys_nodup pat es _ st hloop hNk
    have hevs : evs = st.changed ++ (st.files.filter (fun e => decide (e.1 ∉ st.touched))).map
        (fun e => ⟨eventType.Deleted, e.1, e.2⟩) := by
      have h2 := congrArg Prod.snd hscan
      rw [deletePhase_snd] at h2
      exact h2.symm
    have hfiles2 : files2 = st.files.filter (fun e => decide (e.1 ∈ st.touched)) := by
      have h2 := congrArg Prod.fst hscan
      rw [deletePhase_fst] at h2
      exact h2.symm
    refine ⟨?_, ?_, ?_⟩
    · rw [hevs, List.filter_append]
      have hch : st.changed.filter (fun e => decide (e.path = p)) = [] := by
        rw [List.filter_eq_nil_iff]
        intro e he
        rw [hnew] at he
        simp only [List.nil_append] at he
        simp only [decide_eq_true_eq]
        intro hep
        exact hnv (hep ▸ (hnewP e he).1)
      rw [hch, List.nil_append]
      exact dels_filter_at st.files st.touched p old hnodup hlookst hptch
    · rw [hfiles2]
      exact snapLookup_filter_not_mem st.files st.touched p hptch
    · refine ⟨st.changed,
        (st.files.filter (fun e => decide (e.1 ∉ st.touched))).map
          (fun e => ⟨eventType.Deleted, e.1, e.2⟩), hevs, ?_, ?_⟩
      · intro e he
        rw [hnew] at he
        simp only [List.nil_append] at he
        exact (hnewP e he).2
      · intro e he
        simp only [List.mem_map] at he
        obtain ⟨a, _, hae⟩ := he
        rw [← hae]

theorem C4_witness :
    [(⟨eventType.Deleted, "r/a", ⟨"a", 1, false⟩⟩ : Event)].filter
        (fun e => decide (e.path = "r/a")) = [⟨eventType.Deleted, "r/a", ⟨"a", 1, false⟩⟩] :=
  (C4_deletion "*" [("r/a", ⟨"a", 1, false⟩)] [] []
    [⟨eventType.Deleted, "r/a", ⟨"a", 1, false⟩⟩] "r/a" ⟨"a", 1, false⟩
    (by decide) (by decide) (by simp) (by decide)).1

/-! ### Equivalence of the two watcher variants -/

theorem toksMatchAux_star (fuel : Nat) (cs : List Char) (hfuel : cs.length + 2 ≤ fuel)
    (h : ∀ c ∈ cs, c ≠ '/') : toksMatchAux fuel [GlobTok.star] cs = true := by
  induction fuel generalizing cs with
  | zero => omega
  | succ f ih =>
    cases cs with
    | nil =>
      cases f with
      | zero => simp at hfuel
      | succ f2 => simp [toksMatchAux]
    | cons c cs2 =>
      have h1 : toksMatchAux f [GlobTok.star] cs2 = true := by
        refine ih cs2 ?_ (fun d hd => h d (List.mem_cons_of_mem _ hd))
        simp only [List.length_cons] at hfuel
        omega
      have hc : c ≠ '/' := h c (List.mem_cons_self _ _)
      simp [toksMatchAux, h1, hc]

/-- `*` matches every separator-free name (real directory entry names
contain no separator). -/
theorem matchesFn_star (n : String) (h : sepFree n = true) : matchesFn "*" n = true := by
  have hp : parseGlob "*" = some [GlobTok.star] := by decide
  unfold matchesFn
  rw [hp]
  unfold toksMatch
  refine toksMatchAux_star _ n.data (by simp only [List.length_cons, List.length_nil]; omega) ?_
  intro c hc
  unfold sepFree at h
  rw [List.all_eq_true] at h
  simpa using h c hc

mutual

theorem recWalkNode_no_abort (p : String) (n : FsNode) (h : fsOk n = true) :
    (recWalkNode p n).2 = false := by
  cases n with
  | file nm t => simp [recWalkNode]
  | dir nm t rerr cs =>
    have hok : rerr = false ∧ fsOkList cs = true := by
      unfold fsOk at h
      rw [Bool.and_eq_true] at h
      exact ⟨by simpa using h.1, h.2⟩
    obtain ⟨hrerr, hcs⟩ := hok
    subst hrerr
    simp [recWalkNode, recWalkList_no_abort p cs hcs]
  | broken nm => simp [fsOk] at h

theorem recWalkList_no_abort (p : String) (cs : List FsNode) (h : fsOkList cs = true) :
    (recWalkList p cs).2 = false := by
  cases cs with
  | nil => simp [recWalkList]
  | cons c cs2 =>
    have hok : fsOk c = true ∧ fsOkList cs2 = true := by
      unfold fsOkList at h
      rwa [Bool.and_eq_true] at h
    simp [recWalkList, recWalkNode_no_abort (pathJoin p (fsName c)) c hok.1,
      recWalkList_no_abort p cs2 hok.2]

end

mutual

/-- On an error-free subtree, the inline walk of `scan1` computes the
same state as running `scan2`'s entry loop over the entries
`recScanner`'s walk delivers. -/
theorem walk1Node_eq_scanLoop (pat p : String) (n : FsNode) (st : ScanState)
    (h : fsOk n = true) :
    walk1Node pat p n st = scanLoop pat (recWalkNode p n).1 st := by
  cases n with
  | file nm t => simp [walk1Node, recWalkNode, scanLoop]
  | dir nm t rerr cs =>
    have hok : rerr = false ∧ fsOkList cs = true := by
      unfold fsOk at h
      rw [Bool.and_eq_true] at h
      exact ⟨by simpa using h.1, h.2⟩
    obtain ⟨hrerr, hcs⟩ := hok
    subst hrerr
    simp only [walk1Node, recWalkNode, Bool.false_eq_true, if_false, scanLoop]
    exact walk1List_eq_scanLoop pat p cs (scanStep pat st p ⟨nm, t, true⟩) hcs
  | broken nm => simp [fsOk] at h

theorem walk1List_eq_scanLoop (pat p : String) (cs : List FsNode) (st : ScanState)
    (h : fsOkList cs = true) :
    walk1List pat p cs st = scanLoop pat (recWalkList p cs).1 st := by
  cases cs with
  | nil => simp [walk1List, recWalkList, scanLoop]
  | cons c cs2 =>
    have hok : fsOk c = true ∧ fsOkList cs2 = true := by
      unfold fsOkList at h
      rwa [Bool.and_eq_true] at h
    have hab : (recWalkNode (pathJoin p (fsName c)) c).2 = false :=
      recWalkNode_no_abort (pathJoin p (fsName c)) c hok.1
    simp only [walk1List, recWalkList, hab, Bool.false_eq_true, if_false]
    rw [walk1Node_eq_scanLoop pat (pathJoin p (fsName c)) c st hok.1, scanLoop_append]
    cases hr : scanLoop pat (recWalkNode (pathJoin p (fsName c)) c).1 st with
    | none => simp
    | some st2 =>
      simp only [Option.some_bind]
      exact walk1List_eq_scanLoop pat p cs2 st2 hok.2

end

/-- C8, recursive half: on error-free directory contents the two
variants agree. -/
theorem scan1_rec_eq (pat path : String) (root : FsNode) (files : Snapshot)
    (h : fsOk root = true) :
    scan1 true pat path root files = scan2Run true pat path root files := by
  unfold scan1 scan2Run scan2 recScanner
  simp only [if_true]
  rw [walk1Node_eq_scanLoop pat path root { files := files, touched := [], changed := [] } h]

theorem scanLoop_cons_some (pat p : String) (i : FileInfo)
    (L : List (String × Option FileInfo)) (st : ScanState) :
    scanLoop pat ((p, some i) :: L) st = scanLoop pat L (scanStep pat st p i) := rfl

theorem scan1GlobLoop_cons_file (p nm : String) (t : Int) (L : List (String × FsNode))
    (st : ScanState) :
    scan1GlobLoop ((p, FsNode.file nm t) :: L) st =
      scan1GlobLoop L (statStep st p ⟨nm, t, false⟩) := rfl

theorem scan1GlobLoop_cons_dir (p nm : String) (t : Int) (rerr : Bool) (kids : List FsNode)
    (L : List (String × FsNode)) (st : ScanState) :
    scan1GlobLoop ((p, FsNode.dir nm t rerr kids) :: L) st = scan1GlobLoop L st := rfl

theorem scan1GlobLoop_cons_broken (p nm : String) (L : List (String × FsNode))
    (st : ScanState) :
    scan1GlobLoop ((p, FsNode.broken nm) :: L) st = scan1GlobLoop L st := rfl

/-- The shallow loop of `scan1` (glob already applied the pattern)
agrees with running `scan2`'s loop over `globScanner`'s entries, as long
as the children's names are separator-free (so that `*` lists them all). -/
theorem globLoop_eq (pat path : String) (cs : List FsNode) :
    ∀ st : ScanState,
      (∀ c ∈ cs, sepFree (fsName c) = true) →
      scanLoop pat (cs.filterMap (fun c => match fsInfo c with
          | none => none
          | some i => some (pathJoin path (fsName c), some i))) st =
        some (scan1GlobLoop ((cs.filter (fun c => matchesFn pat (fsName c))).map
          (fun c => (pathJoin path (fsName c), c))) st) := by
  induction cs with
  | nil => intro st _; simp [scanLoop, scan1GlobLoop]
  | cons c cs2 ih =>
    intro st hwf
    have hwf2 : ∀ d ∈ cs2, sepFree (fsName d) = true :=
      fun d hd => hwf d (List.mem_cons_of_mem _ hd)
    cases c with
    | file nm t =>
      have hinfo : fsInfo (FsNode.file nm t) = some (⟨nm, t, false⟩ : FileInfo) := rfl
      have hname : fsName (FsNode.file nm t) = nm := rfl
      simp only [List.filterMap_cons, List.filter_cons, hinfo, hname]
      by_cases hm : matchesFn pat nm = true
      · rw [if_pos hm, List.map_cons, scanLoop_cons_some,
          scanStep_valid pat st (pathJoin path nm) ⟨nm, t, false⟩ rfl hm,
          scan1GlobLoop_cons_file]
        exact ih (statStep st (pathJoin path nm) ⟨nm, t, false⟩) hwf2
      · rw [if_neg hm, scanLoop_cons_some,
          scanStep_skip pat st (pathJoin path nm) ⟨nm, t, false⟩ (Or.inr (by simpa using hm))]
        exact ih st hwf2
    | dir nm t rerr kids =>
      have hinfo : fsInfo (FsNode.dir nm t rerr kids) = some (⟨nm, t, true⟩ : FileInfo) := rfl
      have hname : fsName (FsNode.dir nm t rerr kids) = nm := rfl
      simp only [List.filterMap_cons, List.filter_cons, hinfo, hname]
      rw [scanLoop_cons_some, scanStep_skip pat st (pathJoin path nm) ⟨nm, t, true⟩ (Or.inl rfl)]
      by_cases hm : matchesFn pat nm = true
      · rw [if_pos hm, List.map_cons, scan1GlobLoop_cons_dir]
        exact ih st hwf2
      · rw [if_neg hm]
        exact ih st hwf2
    | broken nm =>
      have hinfo : fsInfo (FsNode.broken nm) = (none : Option FileInfo) := rfl
      have hname : fsName (FsNode.broken nm) = nm := rfl
      simp only [List.filterMap_cons, List.filter_cons, hinfo, hname]
      by_cases hm : matchesFn pat nm = true
      · rw [if_pos hm, List.map_cons, scan1GlobLoop_cons_broken]
        exact ih st hwf2
      · rw [if_neg hm]
        exact ih st hwf2

/-- C8, shallow half: with separator-free names the two variants agree
in non-recursive mode. -/
theorem scan1_glob_eq (pat path : String) (root : FsNode) (files : Snapshot)
    (hwf : ∀ c ∈ globChildren root, sepFree (fsName c) = true) :
    scan1 false pat path root files = scan2Run false pat path root files := by
  have hstar : (globChildren root).filter (fun c => matchesFn "*" (fsName c)) =
      globChildren root := by
    rw [List.filter_eq_self]
    intro c hcmem
    simpa using matchesFn_star (fsName c) (hwf c hcmem)
  have hscanner : globScanner path root = (globChildren root).filterMap (fun c =>
      match fsInfo c with
      | none => none
      | some i => some (pathJoin path (fsName c), some i)) := by
    unfold globScanner globPaths
    rw [hstar, List.filterMap_map]
    rfl
  unfold scan1 scan2Run scan2
  simp only [Bool.false_eq_true, if_false]
  rw [hscanner,
    globLoop_eq pat path (globChildren root) { files := files, touched := [], changed := [] } hwf]
  rfl

/-! ### The first scan from an empty snapshot reports only `Added` -/

theorem scanLoop_all_added (pat : String) (es : List (String × Option FileInfo)) :
    ∀ st st', scanLoop pat es st = some st' →
      (es.map Prod.fst).Nodup →
      (∀ q ∈ es.map Prod.fst, snapLookup st.files q = none) →
      ∃ new, st'.changed = st.changed ++ new ∧ ∀ e ∈ new, e.type = eventType.Added := by
  induction es with
  | nil =>
    intro st st' h _ _
    simp only [scanLoop, Option.some.injEq] at h
    subst h
    exact ⟨[], by simp, by simp⟩
  | cons x rest ih =>
    obtain ⟨p, oi⟩ := x
    cases oi with
    | none => intro st st' h _ _; simp [scanLoop] at h
    | some i =>
      intro st st' h hN hnone
      simp only [List.map_cons, List.nodup_cons] at hN
      have hpn : snapLookup st.files p = none :=
        hnone p (by simp)
      simp only [scanLoop] at h
      by_cases hvalid : i.isDir = false ∧ matchesFn pat i.name = true
      · obtain ⟨hdir, hm⟩ := hvalid
        rw [scanStep_valid pat st p i hdir hm] at h
        have hst1 : (statStep st p i).changed = st.changed ++ [⟨eventType.Added, p, i⟩] := by
          rw [statStep_changed]
          simp [newEvts, hpn]
        have hnone2 : ∀ q ∈ rest.map Prod.fst, snapLookup (statStep st p i).files q = none := by
          intro q hq
          have hqp : q ≠ p := fun hqp => hN.1 (hqp ▸ hq)
          rw [statStep_lookup_ne st p i q hqp]
          exact hnone q (by simp [hq])
        obtain ⟨new, hnew, hnewA⟩ := ih (statStep st p i) st' h hN.2 hnone2
        refine ⟨⟨eventType.Added, p, i⟩ :: new, ?_, ?_⟩
        · rw [hnew, hst1]
          simp
        · intro e he
          rcases List.mem_cons.1 he with he | he
          · rw [he]
          · exact hnewA e he
      · have hskip : i.isDir = true ∨ matchesFn pat i.name = false := by
          rcases Bool.eq_false_or_eq_true i.isDir with h1 | h1
          · exact Or.inl h1
          · rcases Bool.eq_false_or_eq_true (matchesFn pat i.name) with h2 | h2
            · exact absurd ⟨h1, h2⟩ hvalid
            · exact Or.inr h2
        rw [scanStep_skip pat st p i hskip] at h
        exact ih st st' h hN.2 (fun q hq => hnone q (by simp [hq]))

/-- A scan from an empty snapshot (the first scan of `Start`) reports
every event as `Added` — there is nothing to change or delete yet. -/
theorem scan2_empty_added (pat : String) (es : List (String × Option FileInfo))
    (files2 : Snapshot) (evs : List Event)
    (hN : (es.map Prod.fst).Nodup)
    (hscan : scan2 pat [] es = some (files2, evs)) :
    ∀ e ∈ evs, e.type = eventType.Added := by
  unfold scan2 at hscan
  cases hloop : scanLoop pat es { files := [], touched := [], changed := [] } with
  | none => rw [hloop] at hscan; simp at hscan
  | some st =>
    rw [hloop] at hscan
    simp only [Option.some.injEq] at hscan
    obtain ⟨htch, _, _, hsome⟩ := scanLoop_spec pat es _ st hloop
    obtain ⟨new, hnew, hnewA⟩ :=
      scanLoop_all_added pat es _ st hloop hN (fun q _ => by simp [snapLookup])
    have hdels : st.files.filter (fun e => decide (e.1 ∉ st.touched)) = [] := by
      rw [List.filter_eq_nil_iff]
      intro a ha
      have hmem : a.1 ∈ st.files.map Prod.fst := List.mem_map.2 ⟨a, ha, rfl⟩
      have hs : (snapLookup st.files a.1).isSome = true :=
        (snapLookup_isSome_iff st.files a.1).2 hmem
      have hvp := (hsome a.1).1 hs
      simp only [snapLookup, Option.isSome_none, Bool.false_eq_true, false_or] at hvp
      have htcha : a.1 ∈ st.touched := (htch a.1).2 (Or.inr hvp)
      simp [htcha]
    have hevs : evs = st.changed := by
      have h2 := congrArg Prod.snd hscan
      rw [deletePhase_snd, hdels] at h2
      simpa using h2.symm
    intro e he
    rw [hevs, hnew] at he
    simp only [List.nil_append] at he
    exact hnewA e he

/-! ### Claims C5, C6, C9, C10: lifecycle, fan-out, nil dereferences -/

/-- C5: `Start` from idle always performs one immediate scan and stores
its snapshot; with `Preload` set the resulting batch is never delivered
(even when the scan found files), and with `Preload` unset the batch of
all discovered files — each reported `Added` — is handed to `notify`,
which sends it to every observer when it is non-empty. -/
theorem C5_start_preload (dw : directoryWatcher) (root : FsNode) (now : Int)
    (dw2 : directoryWatcher) (sends : List (Observer × EventsAt))
    (files2 : Snapshot) (evs : List Event)
    (hidle : dw.ticker = none)
    (hfiles : dw.files = [])
    (hN : ((startEntries dw root).map Prod.fst).Nodup)
    (hscan : scan2 dw.Pattern [] (startEntries dw root) = some (files2, evs))
    (hstart : Start dw root now = some (dw2, sends)) :
    dw2.files = files2
    ∧ (dw.Preload = true → sends = [])
    ∧ (dw.Preload = false → sends = notify dw.observers { At := now, Events := evs })
    ∧ (dw.Preload = false → evs ≠ [] →
        sends = dw.observers.map (fun ch => (ch, ({ At := now, Events := evs } : EventsAt))))
    ∧ (∀ e ∈ evs, e.type = eventType.Added) := by
  obtain ⟨iv, rcv, patt, sc, pth, fls, tck, obs, pre⟩ := dw
  dsimp only at hidle hfiles hN hscan hstart ⊢
  subst hidle
  subst hfiles
  have hadded := scan2_empty_added patt _ files2 evs hN hscan
  cases rcv with
  | true =>
    simp only [startEntries, if_true] at hN hscan
    have hstart_eq : Start
        { Interval := iv, Recursive := true, Pattern := patt, scan := sc, path := pth,
          files := [], ticker := none, observers := obs, Preload := pre } root now =
        (match scan2 patt [] (recScanner pth root) with
         | none => none
         | some (f2, e2) =>
           some ({ Interval := iv, Recursive := true, Pattern := patt, scan := ScanFn.recScan,
                    path := pth, files := f2, ticker := some (), observers := obs,
                    Preload := pre },
             if pre = true then [] else notify obs { At := now, Events := e2 })) := rfl
    rw [hstart_eq, hscan] at hstart
    dsimp only at hstart
    simp only [Option.some.injEq, Prod.mk.injEq] at hstart
    obtain ⟨hdw2, hsends⟩ := hstart
    refine ⟨?_, ?_, ?_, ?_, hadded⟩
    · rw [← hdw2]
    · intro hpre
      rw [← hsends, hpre]
      simp
    · intro hpre
      rw [← hsends, hpre]
      simp
    · intro hpre hevs
      rw [← hsends, hpre]
      simp only [Bool.false_eq_true, if_false, notify]
      rw [if_neg (by simpa [List.length_eq_zero] using hevs)]
  | false =>
    simp only [startEntries, Bool.false_eq_true, if_false] at hN hscan
    have hstart_eq : Start
        { Interval := iv, Recursive := false, Pattern := patt, scan := sc, path := pth,
          files := [], ticker := none, observers := obs, Preload := pre } root now =
        (match scan2 patt [] (runScanFn sc pth root) with
         | none => none
         | some (f2, e2) =>
           some ({ Interval := iv, Recursive := false, Pattern := patt, scan := sc,
                    path := pth, files := f2, ticker := some (), observers := obs,
                    Preload := pre },
             if pre = true then [] else notify obs { At := now, Events := e2 })) := rfl
    rw [hstart_eq, hscan] at hstart
    dsimp only at hstart
    simp only [Option.some.injEq, Prod.mk.injEq] at hstart
    obtain ⟨hdw2, hsends⟩ := hstart
    refine ⟨?_, ?_, ?_, ?_, hadded⟩
    · rw [← hdw2]
    · intro hpre
      rw [← hsends, hpre]
      simp
    · intro hpre
      rw [← hsends, hpre]
      simp
    · intro hpre hevs
      rw [← hsends, hpre]
      simp only [Bool.false_eq_true, if_false, notify]
      rw [if_neg (by simpa [List.length_eq_zero] using hevs)]

/-- A watcher with `Preload` set and one observer, over a directory with
one matching file: the first scan finds the file but nothing is sent. -/
def c5dw : directoryWatcher :=
  { Interval := 2000, Recursive := false, Pattern := "*", scan := ScanFn.globScan,
    path := "r", files := [], ticker := none, observers := [0], Preload := true }

def c5root : FsNode := FsNode.dir "r" 0 false [FsNode.file "a.txt" 5]

theorem C5_witness :
    Start c5dw c5root 0 =
      some ({ c5dw with files := [("r/a.txt", ⟨"a.txt", 5, false⟩)], ticker := some () }, [])
    ∧ ([] : List (Observer × EventsAt)) = [] :=
  ⟨by decide, (C5_start_preload c5dw c5root 0
      { c5dw with files := [("r/a.txt", ⟨"a.txt", 5, false⟩)], ticker := some () } []
      [("r/a.txt", ⟨"a.txt", 5, false⟩)] [⟨eventType.Added, "r/a.txt", ⟨"a.txt", 5, false⟩⟩]
      rfl rfl (by decide) (by decide) (by decide)).2.1 rfl⟩

/-- C6: `notify` drops an empty batch without side effects; a non-empty
batch is sent to every registered observer, in registration order. -/
theorem C6_notify (obs : List Observer) (evAt : EventsAt) :
    (evAt.Events = [] → notify obs evAt = [])
    ∧ (evAt.Events ≠ [] →
        notify obs evAt = obs.map (fun ch => (ch, evAt))
        ∧ (notify obs evAt).map Prod.fst = obs) := by
  constructor
  · intro h
    simp [notify, h]
  · intro h
    have hl : ¬ evAt.Events.length = 0 := by
      simpa [List.length_eq_zero] using h
    constructor
    · simp [notify, hl]
    · show (notify obs evAt).map Prod.fst = obs
      unfold notify
      rw [if_neg hl, List.map_map]
      have hcomp : (Prod.fst ∘ fun ch : Observer => (ch, evAt)) = id := rfl
      rw [hcomp, List.map_id]

theorem C6_witness :
    notify [0, 1] (⟨0, []⟩ : EventsAt) = []
    ∧ notify [0, 1] (⟨0, [⟨eventType.Added, "r/a", ⟨"a", 1, false⟩⟩]⟩ : EventsAt) =
        [0, 1].map (fun ch =>
          (ch, (⟨0, [⟨eventType.Added, "r/a", ⟨"a", 1, false⟩⟩]⟩ : EventsAt))) :=
  ⟨(C6_notify [0, 1] ⟨0, []⟩).1 rfl,
   ((C6_notify [0, 1] ⟨0, [⟨eventType.Added, "r/a", ⟨"a", 1, false⟩⟩]⟩).2 (by simp)).1⟩

/-- C9: `Stop` has no nil guard: on any watcher whose ticker handle is
nil (`Running` false) it dereferences the nil `*time.Ticker` (modelled
as `none`).  The idle state is reachable: `New` constructs the watcher
with a nil ticker, and a successful `Stop` leaves the ticker nil again. -/
theorem C9_stop_idle :
    (∀ dw : directoryWatcher, Running dw = false → Stop dw = none)
    ∧ (∀ (path : String) (root : FsNode) (dw : directoryWatcher),
        New path root = some dw → Running dw = false)
    ∧ (∀ dw dw2 : directoryWatcher, Stop dw = some dw2 → Running dw2 = false) := by
  refine ⟨?_, ?_, ?_⟩
  · intro dw h
    unfold Stop
    unfold Running at h
    cases ht : dw.ticker with
    | none => rfl
    | some u => rw [ht] at h; simp at h
  · intro path root dw h
    unfold New at h
    cases hi : fsInfo root with
    | none => rw [hi] at h; simp at h
    | some stat =>
      rw [hi] at h
      dsimp only at h
      by_cases hd : stat.isDir = true
      · rw [if_neg (by simp [hd])] at h
        simp only [Option.some.injEq] at h
        rw [← h]
        rfl
      · rw [if_pos (by simpa using hd)] at h
        simp at h
  · intro dw dw2 h
    unfold Stop at h
    cases ht : dw.ticker with
    | none => rw [ht] at h; simp at h
    | some u =>
      rw [ht] at h
      simp only [Option.some.injEq] at h
      rw [← h]
      rfl

/-- A freshly constructed (never started) watcher. -/
def c9dw : directoryWatcher :=
  { Interval := 2000, Recursive := false, Pattern := "*", scan := ScanFn.globScan,
    path := "r", files := [], ticker := none, observers := [], Preload := false }

theorem C9_witness : Stop c9dw = none :=
  C9_stop_idle.1 c9dw rfl

/-- C10: there is a directory state in which the recursive walk invokes
its callback with a nil `os.FileInfo` (and a non-nil error), the
pluggable scanner still forwards that entry, and `scan2` then calls
`IsDir()` on the nil metadata without a guard — the nil-dereference
branch (`none`) is reachable. -/
theorem C10_nil_info_reachable :
    ∃ (path pat : String) (files : Snapshot) (root : FsNode) (p : String),
      (p, (none : Option FileInfo)) ∈ recScanner path root
      ∧ scan2 pat files (recScanner path root) = none :=
  ⟨"r", "*", [], FsNode.dir "r" 0 false [FsNode.broken "a"], "r/a", by decide, by decide⟩

/-! ### Claims C7, C8: traversal error handling and variant equivalence -/

/-- C7 counterexample: in recursive mode an entry whose stat fails is
NOT omitted from the scan's results — `recScanner` forwards it with nil
metadata — and the walk does NOT continue with the remaining siblings:
the error returned by the callback aborts the walk, so the sibling
`r/b` never appears. -/
theorem C7_counterexample :
    ("r/a", (none : Option FileInfo)) ∈
      recScanner "r" (FsNode.dir "r" 0 false [FsNode.broken "a", FsNode.file "b" 1])
    ∧ "r/b" ∉ (recScanner "r"
        (FsNode.dir "r" 0 false [FsNode.broken "a", FsNode.file "b" 1])).map Prod.fst := by
  constructor <;> decide

/-- C7 (amended): in recursive mode only a directory *listing* failure
is tolerated — `scan1`'s callback returns nil for directories, the
unreadable directory's contents are skipped and the walk continues with
its siblings.  A *stat* failure on an entry is not swallowed: the
pluggable scanner forwards the entry with nil metadata and the
callback's returned error aborts the remaining walk, while the inline
variant panics on the nil metadata. -/
theorem C7_amended :
    scan1 true "*" "r" (FsNode.dir "r" 0 false [FsNode.dir "a" 0 true [], FsNode.file "b" 1]) [] =
      some ([("r/b", ⟨"b", 1, false⟩)], [⟨eventType.Added, "r/b", ⟨"b", 1, false⟩⟩])
    ∧ scan1 true "*" "r" (FsNode.dir "r" 0 false [FsNode.broken "a", FsNode.file "b" 1]) [] = none
    ∧ recScanner "r" (FsNode.dir "r" 0 false [FsNode.broken "a", FsNode.file "b" 1]) =
        [("r", some ⟨"r", 0, true⟩), ("r/a", none)] := by
  refine ⟨by decide, by decide, by decide⟩

/-- C8 counterexample: over a root containing an unreadable directory
`a` and a file `b`, the inline-walk variant reports `b` as `Added`
while the pluggable-scanner variant's walk aborts and reports nothing —
the two variants do not always produce the same events and snapshot. -/
theorem C8_counterexample :
    scan1 true "*" "r" (FsNode.dir "r" 0 false [FsNode.dir "a" 0 true [], FsNode.file "b" 1]) [] ≠
      scan2Run true "*" "r" (FsNode.dir "r" 0 false [FsNode.dir "a" 0 true [], FsNode.file "b" 1])
        [] := by decide

/-- C8 (amended): the two variants agree whenever the traversal reports
no per-entry error — in non-recursive mode (for separator-free patterns
and entry names, where the two `Glob` calls list the same children) and
in recursive mode over error-free directory contents.  With traversal
errors they diverge, as the counterexample shows. -/
theorem C8_amended (pat path : String) (root : FsNode) (files : Snapshot) :
    ((∀ c ∈ globChildren root, sepFree (fsName c) = true) → sepFree pat = true →
      scan1 false pat path root files = scan2Run false pat path root files)
    ∧ (fsOk root = true →
      scan1 true pat path root files = scan2Run true pat path root files) :=
  ⟨fun hwf _ => scan1_glob_eq pat path root files hwf,
   fun hok => scan1_rec_eq pat path root files hok⟩

theorem C8_amended_witness :
    scan1 false "*" "r" (FsNode.dir "r" 0 false [FsNode.file "a" 1]) [] =
      scan2Run false "*" "r" (FsNode.dir "r" 0 false [FsNode.file "a" 1]) []
    ∧ scan1 true "*" "r" (FsNode.dir "r" 0 false [FsNode.file "a" 1]) [] =
      scan2Run true "*" "r" (FsNode.dir "r" 0 false [FsNode.file "a" 1]) [] :=
  ⟨(C8_amended "*" "r" (FsNode.dir "r" 0 false [FsNode.file "a" 1]) []).1
      (by decide) (by decide),
   (C8_amended "*" "r" (FsNode.dir "r" 0 false [FsNode.file "a" 1]) []).2 (by decide)⟩

end DirectoryWatcher

